import Mathlib

/-
Verification of the panorama-to-cubemap converter core.

The development shallowly embeds the projection and tiling engine of the
repository: the tile-pyramid configuration and tile counting of
processImage, the direction construction and inverse equirectangular
projection of faceUVToEquirectangular, the bilinear sampler
sampleEquirectangularBilinear, the face rasterizer generateCubeFace and
the tile slicer createTile.  JavaScript floating point numbers are
modelled as real numbers; pixel buffers are modelled as functions from
flat indices to integer channel values (a JS typed array read at an
arbitrary index is total, so a total function is used).
-/

open Real

/-- Tile configuration entry of the converter classes: a tile edge length
and a face edge length, plus the fallbackOnly marker of level 0. -/
structure TileConfig where
  tileSize : ℕ
  size : ℕ
  fallbackOnly : Bool := false

/-- The fixed level table of both converter classes. -/
def tileConfigs : List TileConfig :=
  [⟨256, 256, true⟩, ⟨512, 512, false⟩, ⟨512, 1024, false⟩, ⟨512, 2048, false⟩]

/-- Tiles per side of one level, Math.ceil of the real quotient size / tileSize. -/
def tilesPerSide (size tileSize : ℕ) : ℕ := ⌈(size : ℚ) / (tileSize : ℚ)⌉₊

/-- The totalTiles accumulation loop of processImage. -/
def totalTiles : ℕ :=
  tileConfigs.foldl
    (fun acc c => acc + 6 * tilesPerSide c.size c.tileSize * tilesPerSide c.size c.tileSize) 0

/-- maxZoom as computed by processImage. -/
def maxZoom : ℕ := tileConfigs.length - 1

/-- zoomLevels as computed by processImage. -/
def zoomLevels : ℕ := maxZoom + 1

/-- The counts reported by a successful processImage run; the source image
dimensions are read but do not influence the counts. -/
def processImageCounts (width height : ℕ) : ℕ × ℕ × ℕ := (totalTiles, zoomLevels, maxZoom)

/-- A decoded image: dimensions plus a flat RGBA channel buffer. -/
structure ImageData where
  width : ℕ
  height : ℕ
  data : ℤ → ℤ

/-- Math.atan2 y x modelled as the argument of the complex number with real
part x and imaginary part y. -/
noncomputable def atan2 (y x : ℝ) : ℝ := Complex.arg ⟨x, y⟩

/-- The direction-construction switch of faceUVToEquirectangular, including
the default branch that zeroes the direction for out-of-range face ids. -/
noncomputable def faceDirection (face : ℕ) (u v : ℝ) : ℝ × ℝ × ℝ :=
  let uc := 2 * u - 1
  let vc := 2 * v - 1
  match face with
  | 0 => (1, -vc, -uc)
  | 1 => (-1, -vc, uc)
  | 2 => (uc, 1, vc)
  | 3 => (uc, -1, -vc)
  | 4 => (uc, -vc, 1)
  | 5 => (-uc, -vc, -1)
  | _ => (0, 0, 0)

/-- faceUVToEquirectangular of the server converter: direction switch, then
theta = atan2 z x, phi = acos (y / sqrt (x*x + y*y + z*z)), and the
normalised pair ((theta + pi) / (2 pi), phi / pi). -/
noncomputable def faceUVToEquirectangular (face : ℕ) (u v : ℝ) : ℝ × ℝ :=
  let d := faceDirection face u v
  let x := d.1
  let y := d.2.1
  let z := d.2.2
  let theta := atan2 z x
  let phi := Real.arccos (y / Real.sqrt (x * x + y * y + z * z))
  ((theta + π) / (2 * π), phi / π)

/-- The clamp of the sampler: Math.max 0 (Math.min 1 t). -/
noncomputable def clamp01 (t : ℝ) : ℝ := max 0 (min 1 t)

/-- The continuous pixel coordinate of the sampler: clamped input scaled by
dimension minus one. -/
noncomputable def pixelCoord (t : ℝ) (n : ℕ) : ℝ := clamp01 t * ((n : ℝ) - 1)

/-- The floor index x1 (resp. y1) of the sampler. -/
noncomputable def floorIndex (t : ℝ) (n : ℕ) : ℤ := ⌊pixelCoord t n⌋

/-- The clamped neighbour index x2 = min (x1 + 1) (width - 1) of the sampler. -/
def clampedNext (i : ℤ) (n : ℕ) : ℤ := min (i + 1) ((n : ℤ) - 1)

/-- The getPixel closure of the sampler: read three channels at the flat
index (py * width + px) * 4. -/
noncomputable def getPixel (imgData : ImageData) (width : ℕ) (px py : ℤ) : ℝ × ℝ × ℝ :=
  ((imgData.data ((py * (width : ℤ) + px) * 4) : ℝ),
   (imgData.data ((py * (width : ℤ) + px) * 4 + 1) : ℝ),
   (imgData.data ((py * (width : ℤ) + px) * 4 + 2) : ℝ))

/-- sampleEquirectangularBilinear of the server converter. -/
noncomputable def sampleEquirectangularBilinear (imgData : ImageData) (u v : ℝ)
    (width height : ℕ) : ℤ × ℤ × ℤ :=
  let x := pixelCoord u width
  let y := pixelCoord v height
  let x1 := floorIndex u width
  let y1 := floorIndex v height
  let x2 := clampedNext x1 width
  let y2 := clampedNext y1 height
  let fx := x - (x1 : ℝ)
  let fy := y - (y1 : ℝ)
  let p11 := getPixel imgData width x1 y1
  let p21 := getPixel imgData width x2 y1
  let p12 := getPixel imgData width x1 y2
  let p22 := getPixel imgData width x2 y2
  let interpolate := fun (c1 c2 c3 c4 : ℝ) =>
    let i1 := c1 * (1 - fx) + c2 * fx
    let i2 := c3 * (1 - fx) + c4 * fx
    i1 * (1 - fy) + i2 * fy
  (round (interpolate p11.1 p21.1 p12.1 p22.1),
   round (interpolate p11.2.1 p21.2.1 p12.2.1 p22.2.1),
   round (interpolate p11.2.2 p21.2.2 p12.2.2 p22.2.2))

/-- generateCubeFace of the server converter: its nested loop writes channel
ch of pixel (x, y) at flat index (y * size + x) * 4 + ch, the RGB channels
from the sampled source pixel at the projected coordinates of (x / size,
y / size), and alpha fixed at 255; the written buffer is modelled as the
function from flat indices to channel values. -/
noncomputable def generateCubeFace (img : ImageData) (face size : ℕ) : ℕ → ℤ :=
  fun idx =>
    let p := idx / 4
    let x := p % size
    let y := p / size
    let uv := faceUVToEquirectangular face ((x : ℝ) / (size : ℝ)) ((y : ℝ) / (size : ℝ))
    let pixel := sampleEquirectangularBilinear img uv.1 uv.2 img.width img.height
    if idx % 4 = 0 then pixel.1
    else if idx % 4 = 1 then pixel.2.1
    else if idx % 4 = 2 then pixel.2.2
    else 255

/-- The copied extent of a tile along one axis: Math.min tileSize
(faceSize - k * tileSize) for tile index k on that axis. -/
def tileExtent (faceSize tileSize k : ℕ) : ℕ := min tileSize (faceSize - k * tileSize)

/-- createTile of the server converter: the copy loop writes channel ch of
tile-local pixel (x, y) at flat index (y * tileSize + x) * 4 + ch from the
face buffer at ((tileY * tileSize + y) * faceSize + (tileX * tileSize + x))
* 4 + ch, for x and y below the copied extents; indices outside the copied
region keep the zero-initialised value of createImageData. -/
def createTile (faceData : ℕ → ℤ) (tileX tileY tileSize faceSize : ℕ) : ℕ → ℤ :=
  fun tileIdx =>
    let p := tileIdx / 4
    let x := p % tileSize
    let y := p / tileSize
    if x < tileExtent faceSize tileSize tileX ∧ y < tileExtent faceSize tileSize tileY then
      faceData (((tileY * tileSize + y) * faceSize + (tileX * tileSize + x)) * 4 + tileIdx % 4)
    else 0

/-- The (row, col) tile indices visited by the per-face slicing loop of
processImage. -/
def faceTileIndices (faceSize tileSize : ℕ) : List (ℕ × ℕ) :=
  (List.range (tilesPerSide faceSize tileSize)).flatMap
    (fun row => (List.range (tilesPerSide faceSize tileSize)).map (fun col => (row, col)))

/-- Membership of pixel (px, py) in the copied region of tile (row, col). -/
def inTileRegion (faceSize tileSize row col px py : ℕ) : Prop :=
  col * tileSize ≤ px ∧ px < col * tileSize + tileExtent faceSize tileSize col ∧
  row * tileSize ≤ py ∧ py < row * tileSize + tileExtent faceSize tileSize row

/-- faceUVToEquirectangular of the client converter in
panorama-converter.tsx, transcribed separately from the server copy: the
switch is inlined in the function body exactly as in the client source. -/
noncomputable def clientFaceUVToEquirectangular (face : ℕ) (u v : ℝ) : ℝ × ℝ :=
  let uc := 2 * u - 1
  let vc := 2 * v - 1
  let d : ℝ × ℝ × ℝ :=
    match face with
    | 0 => (1, -vc, -uc)
    | 1 => (-1, -vc, uc)
    | 2 => (uc, 1, vc)
    | 3 => (uc, -1, -vc)
    | 4 => (uc, -vc, 1)
    | 5 => (-uc, -vc, -1)
    | _ => (0, 0, 0)
  let theta := atan2 d.2.2 d.1
  let phi := Real.arccos (d.2.1 / Real.sqrt (d.1 * d.1 + d.2.1 * d.2.1 + d.2.2 * d.2.2))
  ((theta + π) / (2 * π), phi / π)

/-- sampleEquirectangularBilinear of the client converter in
panorama-converter.tsx, transcribed separately with its clamp, floor,
neighbour clamp and getPixel inlined. -/
noncomputable def clientSampleEquirectangularBilinear (imgData : ImageData) (u v : ℝ)
    (width height : ℕ) : ℤ × ℤ × ℤ :=
  let u1 := max 0 (min 1 u)
  let v1 := max 0 (min 1 v)
  let x := u1 * ((width : ℝ) - 1)
  let y := v1 * ((height : ℝ) - 1)
  let x1 := ⌊x⌋
  let y1 := ⌊y⌋
  let x2 := min (x1 + 1) ((width : ℤ) - 1)
  let y2 := min (y1 + 1) ((height : ℤ) - 1)
  let fx := x - (x1 : ℝ)
  let fy := y - (y1 : ℝ)
  let pick := fun (px py : ℤ) =>
    ((imgData.data ((py * (width : ℤ) + px) * 4) : ℝ),
     (imgData.data ((py * (width : ℤ) + px) * 4 + 1) : ℝ),
     (imgData.data ((py * (width : ℤ) + px) * 4 + 2) : ℝ))
  let p11 := pick x1 y1
  let p21 := pick x2 y1
  let p12 := pick x1 y2
  let p22 := pick x2 y2
  let interpolate := fun (c1 c2 c3 c4 : ℝ) =>
    let i1 := c1 * (1 - fx) + c2 * fx
    let i2 := c3 * (1 - fx) + c4 * fx
    i1 * (1 - fy) + i2 * fy
  (round (interpolate p11.1 p21.1 p12.1 p22.1),
   round (interpolate p11.2.1 p21.2.1 p12.2.1 p22.2.1),
   round (interpolate p11.2.2 p21.2.2 p12.2.2 p22.2.2))

/-- Direction table as the specification words it, for comparison with the
direction switch of the code; defined only on face ids 0 to 5, with a zero
default so the function is total. -/
noncomputable def specDirectionTable (face : ℕ) (u v : ℝ) : ℝ × ℝ × ℝ :=
  let uc := 2 * u - 1
  let vc := 2 * v - 1
  match face with
  | 0 => (1, -vc, -uc)
  | 1 => (-1, -vc, uc)
  | 2 => (uc, 1, vc)
  | 3 => (uc, -1, -vc)
  | 4 => (uc, -vc, 1)
  | 5 => (-uc, -vc, -1)
  | _ => (0, 0, 0)

/-- Face Rasterizer pixel rule as the specification claims it, with
half-pixel centres: pixel (x, y) sampled at face UV ((x + 0.5) / faceSize,
(y + 0.5) / faceSize); the code instead uses (x / faceSize, y / faceSize). -/
noncomputable def specRasterizerPixel (img : ImageData) (face size x y : ℕ) : ℤ × ℤ × ℤ :=
  let uv := faceUVToEquirectangular face
    (((x : ℝ) + 1 / 2) / (size : ℝ)) (((y : ℝ) + 1 / 2) / (size : ℝ))
  sampleEquirectangularBilinear img uv.1 uv.2 img.width img.height

/-- Tile encoding flow of createTile in the server route file: a single
convertToBlob attempt at quality 1.0 whose failure aborts the conversion.
The codec is an oracle from the requested quality to an optional blob. -/
def serverEncodeTile (encode : ℚ → Option ℕ) : Except Unit ℕ :=
  match encode 1 with
  | some blob => Except.ok blob
  | none => Except.error ()

/-- Tile encoding flow of createTile in page.tsx: a convertToBlob attempt
at quality 1.0, one retry at quality 0.9 if it fails, and a fatal error if
the retry fails too. -/
def pageEncodeTile (encode : ℚ → Option ℕ) : Except Unit ℕ :=
  match encode 1 with
  | some blob => Except.ok blob
  | none =>
    match encode (9 / 10) with
    | some blob => Except.ok blob
    | none => Except.error ()

/-- Codec oracle that fails at top quality and succeeds at the reduced
quality 0.9. -/
def failAtTopQuality : ℚ → Option ℕ := fun q => if q = 9 / 10 then some 7 else none

/-- Concrete 9 by 1 source image whose red channel is 255 at pixel column 7
and 0 elsewhere. -/
def img9 : ImageData := ⟨9, 1, fun i => if i = 28 then 255 else 0⟩

/-- Concrete 4 by 2 source image with every pixel RGB (128, 64, 32) and
alpha 255. -/
def constImage42 : ImageData :=
  ⟨4, 2, fun i => if i % 4 = 0 then 128 else if i % 4 = 1 then 64
    else if i % 4 = 2 then 32 else 255⟩

/-- C1: for every valid source image, a successful conversion reports
totalTiles = 132, zoomLevels = 4 and maxZoom = 3, with tiles per side
1, 1, 2, 4 over the four fixed levels. -/
theorem C1_conversion_counts (width height : ℕ) (hw : 0 < width) (hh : 0 < height) :
    processImageCounts width height = (132, 4, 3) ∧
    tileConfigs.map (fun c => tilesPerSide c.size c.tileSize) = [1, 1, 2, 4] := by
  refine ⟨?_, ?_⟩ <;>
    norm_num [processImageCounts, totalTiles, zoomLevels, maxZoom, tileConfigs, tilesPerSide]

/-- Witness for C1 at the concrete valid dimensions 4 by 2. -/
theorem C1_conversion_counts_witness :
    (0 < 4 ∧ 0 < 2) ∧
    (processImageCounts 4 2 = (132, 4, 3) ∧
      tileConfigs.map (fun c => tilesPerSide c.size c.tileSize) = [1, 1, 2, 4]) :=
  ⟨⟨by norm_num, by norm_num⟩, C1_conversion_counts 4 2 (by norm_num) (by norm_num)⟩

theorem clamp01_nonneg (t : ℝ) : 0 ≤ clamp01 t := le_max_left 0 _

theorem clamp01_le_one (t : ℝ) : clamp01 t ≤ 1 := max_le zero_le_one (min_le_left 1 t)

theorem pixelCoord_nonneg {n : ℕ} (hn : 1 ≤ n) (t : ℝ) : 0 ≤ pixelCoord t n := by
  have h1 : (0 : ℝ) ≤ (n : ℝ) - 1 := by
    have : (1 : ℝ) ≤ (n : ℝ) := by exact_mod_cast hn
    linarith
  exact mul_nonneg (clamp01_nonneg t) h1

theorem pixelCoord_le {n : ℕ} (hn : 1 ≤ n) (t : ℝ) : pixelCoord t n ≤ (n : ℝ) - 1 := by
  have h1 : (0 : ℝ) ≤ (n : ℝ) - 1 := by
    have : (1 : ℝ) ≤ (n : ℝ) := by exact_mod_cast hn
    linarith
  exact mul_le_of_le_one_left h1 (clamp01_le_one t)

theorem floorIndex_nonneg {n : ℕ} (hn : 1 ≤ n) (t : ℝ) : 0 ≤ floorIndex t n :=
  Int.le_floor.2 (by exact_mod_cast pixelCoord_nonneg hn t)

theorem floorIndex_le {n : ℕ} (hn : 1 ≤ n) (t : ℝ) : floorIndex t n ≤ (n : ℤ) - 1 := by
  have h1 : (floorIndex t n : ℝ) ≤ (n : ℝ) - 1 :=
    le_trans (Int.floor_le (pixelCoord t n)) (pixelCoord_le hn t)
  exact_mod_cast h1

theorem clampedNext_nonneg {n : ℕ} {i : ℤ} (hn : 1 ≤ n) (hi : 0 ≤ i) :
    0 ≤ clampedNext i n := by
  refine le_min (by linarith) ?_
  have : (1 : ℤ) ≤ (n : ℤ) := by exact_mod_cast hn
  linarith

theorem clampedNext_le (n : ℕ) (i : ℤ) : clampedNext i n ≤ (n : ℤ) - 1 := min_le_right _ _

theorem sample_at_integer (img : ImageData) (u v : ℝ) (width height : ℕ) (n m : ℤ)
    (hu : pixelCoord u width = (n : ℝ)) (hv : pixelCoord v height = (m : ℝ)) :
    sampleEquirectangularBilinear img u v width height =
      (img.data ((m * width + n) * 4),
       img.data ((m * width + n) * 4 + 1),
       img.data ((m * width + n) * 4 + 2)) := by
  have hfu : floorIndex u width = n := by rw [floorIndex, hu, Int.floor_intCast]
  have hfv : floorIndex v height = m := by rw [floorIndex, hv, Int.floor_intCast]
  simp only [sampleEquirectangularBilinear, getPixel, hfu, hfv, hu, hv, sub_self, sub_zero,
    mul_zero, mul_one, add_zero, round_intCast]

/-- C7: the sampler clamps u and v into the unit interval and all four
derived corner indices x1, x2, y1, y2 lie inside the source bounds, so
every corner read of getPixel is in bounds. -/
theorem C7_sampler_index_bounds (u v : ℝ) (width height : ℕ)
    (hw : 1 ≤ width) (hh : 1 ≤ height) :
    (0 ≤ clamp01 u ∧ clamp01 u ≤ 1) ∧ (0 ≤ clamp01 v ∧ clamp01 v ≤ 1) ∧
    (0 ≤ floorIndex u width ∧ floorIndex u width ≤ (width : ℤ) - 1) ∧
    (0 ≤ clampedNext (floorIndex u width) width ∧
      clampedNext (floorIndex u width) width ≤ (width : ℤ) - 1) ∧
    (0 ≤ floorIndex v height ∧ floorIndex v height ≤ (height : ℤ) - 1) ∧
    (0 ≤ clampedNext (floorIndex v height) height ∧
      clampedNext (floorIndex v height) height ≤ (height : ℤ) - 1) :=
  ⟨⟨clamp01_nonneg u, clamp01_le_one u⟩, ⟨clamp01_nonneg v, clamp01_le_one v⟩,
   ⟨floorIndex_nonneg hw u, floorIndex_le hw u⟩,
   ⟨clampedNext_nonneg hw (floorIndex_nonneg hw u), clampedNext_le width _⟩,
   ⟨floorIndex_nonneg hh v, floorIndex_le hh v⟩,
   ⟨clampedNext_nonneg hh (floorIndex_nonneg hh v), clampedNext_le height _⟩⟩

/-- Witness for C7 at u = 2, v = -3 on a 1 by 1 source. -/
theorem C7_sampler_index_bounds_witness :
    (1 ≤ 1 ∧ 1 ≤ 1) ∧
    ((0 ≤ clamp01 2 ∧ clamp01 2 ≤ 1) ∧ (0 ≤ clamp01 (-3) ∧ clamp01 (-3) ≤ 1) ∧
     (0 ≤ floorIndex 2 1 ∧ floorIndex 2 1 ≤ (1 : ℤ) - 1) ∧
     (0 ≤ clampedNext (floorIndex 2 1) 1 ∧ clampedNext (floorIndex 2 1) 1 ≤ (1 : ℤ) - 1) ∧
     (0 ≤ floorIndex (-3) 1 ∧ floorIndex (-3) 1 ≤ (1 : ℤ) - 1) ∧
     (0 ≤ clampedNext (floorIndex (-3) 1) 1 ∧
       clampedNext (floorIndex (-3) 1) 1 ≤ (1 : ℤ) - 1)) :=
  ⟨⟨by norm_num, by norm_num⟩,
   by exact_mod_cast C7_sampler_index_bounds 2 (-3) 1 1 (by norm_num) (by norm_num)⟩

/-- C8: at the clamped extremes u = v = 0 and u = v = 1 the sampler returns
exactly the corresponding corner pixel of the source, with no blending. -/
theorem C8_corner_exactness (img : ImageData) (width height : ℕ)
    (hw : 1 ≤ width) (hh : 1 ≤ height) :
    sampleEquirectangularBilinear img 0 0 width height =
      (img.data 0, img.data 1, img.data 2) ∧
    sampleEquirectangularBilinear img 1 1 width height =
      (img.data ((((height : ℤ) - 1) * width + ((width : ℤ) - 1)) * 4),
       img.data ((((height : ℤ) - 1) * width + ((width : ℤ) - 1)) * 4 + 1),
       img.data ((((height : ℤ) - 1) * width + ((width : ℤ) - 1)) * 4 + 2)) := by
  constructor
  · have h := sample_at_integer img 0 0 width height 0 0
      (by norm_num [pixelCoord, clamp01]) (by norm_num [pixelCoord, clamp01])
    simpa using h
  · refine sample_at_integer img 1 1 width height ((width : ℤ) - 1) ((height : ℤ) - 1) ?_ ?_
    · norm_num [pixelCoord, clamp01]
    · norm_num [pixelCoord, clamp01]

/-- Witness for C8 on the concrete 4 by 2 source image. -/
theorem C8_corner_exactness_witness :
    (1 ≤ 4 ∧ 1 ≤ 2) ∧
    (sampleEquirectangularBilinear constImage42 0 0 4 2 =
       (constImage42.data 0, constImage42.data 1, constImage42.data 2) ∧
     sampleEquirectangularBilinear constImage42 1 1 4 2 =
       (constImage42.data ((((2 : ℤ) - 1) * 4 + ((4 : ℤ) - 1)) * 4),
        constImage42.data ((((2 : ℤ) - 1) * 4 + ((4 : ℤ) - 1)) * 4 + 1),
        constImage42.data ((((2 : ℤ) - 1) * 4 + ((4 : ℤ) - 1)) * 4 + 2))) :=
  ⟨⟨by norm_num, by norm_num⟩,
   by exact_mod_cast C8_corner_exactness constImage42 4 2 (by norm_num) (by norm_num)⟩

theorem le_tilesPerSide_mul {S T : ℕ} (hT : 0 < T) : S ≤ tilesPerSide S T * T := by
  have hT' : (0 : ℚ) < (T : ℚ) := by exact_mod_cast hT
  have h1 : ((S : ℚ) / (T : ℚ)) ≤ ((tilesPerSide S T : ℕ) : ℚ) := Nat.le_ceil _
  have h2 : (S : ℚ) ≤ ((tilesPerSide S T : ℕ) : ℚ) * (T : ℚ) := (div_le_iff₀ hT').1 h1
  exact_mod_cast h2

theorem tilesPerSide_pos {S T : ℕ} (hS : 0 < S) (hT : 0 < T) : 0 < tilesPerSide S T := by
  have hS' : (0 : ℚ) < (S : ℚ) := by exact_mod_cast hS
  have hT' : (0 : ℚ) < (T : ℚ) := by exact_mod_cast hT
  exact Nat.ceil_pos.2 (div_pos hS' hT')

theorem tilesPerSide_pred_mul_lt {S T : ℕ} (hS : 0 < S) (hT : 0 < T) :
    (tilesPerSide S T - 1) * T < S := by
  have hT' : (0 : ℚ) < (T : ℚ) := by exact_mod_cast hT
  have h0 := tilesPerSide_pos hS hT
  have h1 : tilesPerSide S T - 1 < tilesPerSide S T := by omega
  have h2 : ((tilesPerSide S T - 1 : ℕ) : ℚ) < (S : ℚ) / (T : ℚ) := Nat.lt_ceil.1 h1
  have h3 : ((tilesPerSide S T - 1 : ℕ) : ℚ) * (T : ℚ) < (S : ℚ) := (lt_div_iff₀ hT').1 h2
  exact_mod_cast h3

theorem tile_axis_cover {S T : ℕ} (hS : 0 < S) (hT : 0 < T) {p : ℕ} (hp : p < S) :
    ∃! c : ℕ, c < tilesPerSide S T ∧ c * T ≤ p ∧ p < c * T + tileExtent S T c := by
  have hdm : T * (p / T) + p % T = p := Nat.div_add_mod p T
  have hm : p % T < T := Nat.mod_lt p hT
  have hle : p / T * T ≤ p := Nat.div_mul_le_self p T
  have hlt : p < p / T * T + T := by
    calc p = T * (p / T) + p % T := hdm.symm
    _ < T * (p / T) + T := by omega
    _ = p / T * T + T := by ring
  refine ⟨p / T, ⟨?_, hle, ?_⟩, ?_⟩
  · exact (Nat.div_lt_iff_lt_mul hT).2 (lt_of_lt_of_le hp (le_tilesPerSide_mul hT))
  · rcases le_or_lt T (S - p / T * T) with h | h
    · rw [tileExtent, min_eq_left h]
      exact hlt
    · rw [tileExtent, min_eq_right h.le]
      have h2 : p / T * T ≤ S := le_of_lt (lt_of_le_of_lt hle hp)
      rw [Nat.add_sub_cancel' h2]
      exact hp
  · rintro c ⟨hc1, hc2, hc3⟩
    have hext : tileExtent S T c ≤ T := min_le_left _ _
    have : p < (c + 1) * T := by
      calc p < c * T + tileExtent S T c := hc3
      _ ≤ c * T + T := by omega
      _ = (c + 1) * T := by ring
    exact (Nat.div_eq_of_lt_le hc2 this).symm

theorem mem_faceTileIndices {S T : ℕ} (rc : ℕ × ℕ) :
    rc ∈ faceTileIndices S T ↔ rc.1 < tilesPerSide S T ∧ rc.2 < tilesPerSide S T := by
  obtain ⟨r, c⟩ := rc
  constructor
  · intro h
    simp only [faceTileIndices, List.mem_flatMap, List.mem_map, List.mem_range] at h
    obtain ⟨a, ha, b, hb, hab⟩ := h
    obtain ⟨rfl, rfl⟩ := Prod.mk.injEq .. ▸ hab
    exact ⟨ha, hb⟩
  · rintro ⟨h1, h2⟩
    simp only [faceTileIndices, List.mem_flatMap, List.mem_map, List.mem_range]
    exact ⟨r, h1, c, h2, rfl⟩

theorem length_faceTileIndices (S T : ℕ) :
    (faceTileIndices S T).length = tilesPerSide S T * tilesPerSide S T := by
  simp [faceTileIndices, Function.comp_def, List.map_const', List.sum_replicate, smul_eq_mul]

theorem trailing_tileExtent {S T : ℕ} (hS : 0 < S) (hT : 0 < T) :
    tileExtent S T (tilesPerSide S T - 1) = if S % T = 0 then T else S % T := by
  have h1 := le_tilesPerSide_mul (S := S) hT
  have h2 := tilesPerSide_pred_mul_lt hS hT
  have h3 := tilesPerSide_pos hS hT
  have hNT : tilesPerSide S T * T = (tilesPerSide S T - 1) * T + T := by
    have h4 : tilesPerSide S T - 1 + 1 = tilesPerSide S T := by omega
    calc tilesPerSide S T * T = (tilesPerSide S T - 1 + 1) * T := by rw [h4]
    _ = (tilesPerSide S T - 1) * T + T := by ring
  have hdvd : T ∣ (tilesPerSide S T - 1) * T := Dvd.intro_left _ rfl
  rw [tileExtent]
  generalize hq : (tilesPerSide S T - 1) * T = q at h2 hNT hdvd
  have h1' : S ≤ q + T := hNT ▸ h1
  have hq0 : q % T = 0 := Nat.mod_eq_zero_of_dvd hdvd
  have hR2 : S - q ≤ T := by omega
  have hmod : S % T = (S - q) % T := by
    conv_lhs => rw [show S = q + (S - q) by omega]
    simp [Nat.add_mod, hq0]
  rcases eq_or_lt_of_le hR2 with hR | hR
  · have hz : S % T = 0 := by rw [hmod, hR, Nat.mod_self]
    rw [hz, if_pos rfl, hR, min_self]
  · have hz : S % T = S - q := by rw [hmod, Nat.mod_eq_of_lt hR]
    rw [hz, if_neg (by omega), min_eq_right hR2]

theorem createTile_copy (faceData : ℕ → ℤ) {S T : ℕ} (hT : 0 < T) (tX tY x y ch : ℕ)
    (hx : x < tileExtent S T tX) (hy : y < tileExtent S T tY) (hch : ch < 4) :
    createTile faceData tX tY T S ((y * T + x) * 4 + ch) =
      faceData (((tY * T + y) * S + (tX * T + x)) * 4 + ch) := by
  have hxT : x < T := lt_of_lt_of_le hx (min_le_left _ _)
  have h4 : ((y * T + x) * 4 + ch) / 4 = y * T + x := by
    generalize y * T + x = A
    omega
  have hmod4 : ((y * T + x) * 4 + ch) % 4 = ch := by
    generalize y * T + x = A
    omega
  have hmodT : (y * T + x) % T = x := by
    rw [add_comm, Nat.add_mul_mod_self_right, Nat.mod_eq_of_lt hxT]
  have hdivT : (y * T + x) / T = y := by
    rw [add_comm, Nat.add_mul_div_right x y hT, Nat.div_eq_of_lt hxT, Nat.zero_add]
  simp only [createTile, h4, hmod4, hmodT, hdivT]
  rw [if_pos ⟨hx, hy⟩]

/-- C5: per face the slicing loop produces exactly tilesPerSide squared
tiles; tile (row, col) copies from offset (col * tileSize, row * tileSize)
with extent min tileSize (faceSize - offset) per axis; the copied regions
partition the face grid with no overlap and no gap; the trailing extent is
faceSize mod tileSize when nonzero and tileSize otherwise; and each copied
entry is a verbatim memory copy from the face buffer. -/
theorem C5_tile_slicer (S T : ℕ) (hS : 0 < S) (hT : 0 < T) :
    (faceTileIndices S T).length = tilesPerSide S T * tilesPerSide S T ∧
    (∀ px py : ℕ, px < S → py < S →
      ∃! rc : ℕ × ℕ, rc ∈ faceTileIndices S T ∧ inTileRegion S T rc.1 rc.2 px py) ∧
    tileExtent S T (tilesPerSide S T - 1) = (if S % T = 0 then T else S % T) ∧
    (∀ (faceData : ℕ → ℤ) (tX tY x y ch : ℕ),
      x < tileExtent S T tX → y < tileExtent S T tY → ch < 4 →
      createTile faceData tX tY T S ((y * T + x) * 4 + ch) =
        faceData (((tY * T + y) * S + (tX * T + x)) * 4 + ch)) := by
  refine ⟨length_faceTileIndices S T, ?_, trailing_tileExtent hS hT, ?_⟩
  · intro px py hpx hpy
    obtain ⟨c, ⟨hc1, hc2, hc3⟩, hcu⟩ := tile_axis_cover hS hT hpx
    obtain ⟨r, ⟨hr1, hr2, hr3⟩, hru⟩ := tile_axis_cover hS hT hpy
    refine ⟨(r, c), ⟨(mem_faceTileIndices _).2 ⟨hr1, hc1⟩, hc2, hc3, hr2, hr3⟩, ?_⟩
    rintro ⟨r', c'⟩ ⟨hmem, hreg⟩
    obtain ⟨hr1', hc1'⟩ := (mem_faceTileIndices _).1 hmem
    have hc' : c' = c := hcu c' ⟨hc1', hreg.1, hreg.2.1⟩
    have hr' : r' = r := hru r' ⟨hr1', hreg.2.2.1, hreg.2.2.2⟩
    simp [hc', hr']
  · intro faceData tX tY x y ch hx hy hch
    exact createTile_copy faceData hT tX tY x y ch hx hy hch

/-- Witness for C5 at faceSize 5 and tileSize 2, a partial trailing tile. -/
theorem C5_tile_slicer_witness :
    (0 < 5 ∧ 0 < 2) ∧
    ((faceTileIndices 5 2).length = tilesPerSide 5 2 * tilesPerSide 5 2 ∧
     (∀ px py : ℕ, px < 5 → py < 5 →
       ∃! rc : ℕ × ℕ, rc ∈ faceTileIndices 5 2 ∧ inTileRegion 5 2 rc.1 rc.2 px py) ∧
     tileExtent 5 2 (tilesPerSide 5 2 - 1) = (if 5 % 2 = 0 then 2 else 5 % 2) ∧
     (∀ (faceData : ℕ → ℤ) (tX tY x y ch : ℕ),
       x < tileExtent 5 2 tX → y < tileExtent 5 2 tY → ch < 4 →
       createTile faceData tX tY 2 5 ((y * 2 + x) * 4 + ch) =
         faceData (((tY * 2 + y) * 5 + (tX * 2 + x)) * 4 + ch))) :=
  ⟨⟨by norm_num, by norm_num⟩, C5_tile_slicer 5 2 (by norm_num) (by norm_num)⟩

theorem atan2_zero_zero : atan2 0 0 = 0 := by
  have h : (⟨0, 0⟩ : ℂ) = 0 := by
    apply Complex.ext <;> simp
  rw [atan2, h, Complex.arg_zero]

theorem atan2_one_zero : atan2 1 0 = π / 2 := by
  have h : (⟨0, 1⟩ : ℂ) = Complex.I := by
    apply Complex.ext <;> simp
  rw [atan2, h, Complex.arg_I]

theorem atan2_one_neg_one : atan2 1 (-1) = 3 * π / 4 := by
  have hre : ((⟨-1, 1⟩ : ℂ)).re < 0 := by norm_num
  have him : (0 : ℝ) ≤ ((⟨-1, 1⟩ : ℂ)).im := by norm_num
  rw [atan2, Complex.arg_of_re_neg_of_im_nonneg hre him]
  have habs : Complex.abs ⟨-1, 1⟩ = Real.sqrt 2 := by
    rw [Complex.abs_apply, Complex.normSq_mk]
    norm_num
  have hnegim : (-((⟨-1, 1⟩ : ℂ))).im = -1 := by simp
  rw [hnegim, habs]
  have h12 : (-1 : ℝ) / Real.sqrt 2 = -(Real.sqrt 2 / 2) := by
    field_simp
  rw [h12, Real.arcsin_neg]
  have harc : Real.arcsin (Real.sqrt 2 / 2) = π / 4 := by
    rw [← Real.sin_pi_div_four]
    exact Real.arcsin_sin (by linarith [Real.pi_pos]) (by linarith [Real.pi_pos])
  rw [harc]
  ring

theorem faceUV_front_corner_code : (faceUVToEquirectangular 4 0 0).1 = 7 / 8 := by
  have hd : faceDirection 4 0 0 = (-1, 1, 1) := by norm_num [faceDirection]
  have h : (faceUVToEquirectangular 4 0 0).1 = (atan2 1 (-1) + π) / (2 * π) := by
    simp only [faceUVToEquirectangular, hd]
  rw [h, atan2_one_neg_one]
  have hpi := Real.pi_ne_zero
  field_simp
  ring

theorem faceUV_front_center_spec : (faceUVToEquirectangular 4 (1 / 2) (1 / 2)).1 = 3 / 4 := by
  have hd : faceDirection 4 (1 / 2) (1 / 2) = (0, 0, 1) := by norm_num [faceDirection]
  have h : (faceUVToEquirectangular 4 (1 / 2) (1 / 2)).1 = (atan2 1 0 + π) / (2 * π) := by
    simp only [faceUVToEquirectangular, hd]
  rw [h, atan2_one_zero]
  have hpi := Real.pi_ne_zero
  field_simp
  ring

/-- C3: on face ids 0 to 5 the direction switch realises exactly the fixed
sign and permutation table of the specification, the returned pair is the
normalised atan2 and arccos formulas over that direction, and both
components lie in the closed unit interval. -/
theorem C3_direction_table_and_range (face : ℕ) (u v : ℝ) (hface : face < 6)
    (hu0 : 0 ≤ u) (hu1 : u < 1) (hv0 : 0 ≤ v) (hv1 : v < 1) :
    faceDirection face u v = specDirectionTable face u v ∧
    faceUVToEquirectangular face u v =
      ((atan2 (specDirectionTable face u v).2.2 (specDirectionTable face u v).1 + π) / (2 * π),
       Real.arccos ((specDirectionTable face u v).2.1 /
         Real.sqrt ((specDirectionTable face u v).1 ^ 2 + (specDirectionTable face u v).2.1 ^ 2 +
           (specDirectionTable face u v).2.2 ^ 2)) / π) ∧
    (faceUVToEquirectangular face u v).1 ∈ Set.Icc (0 : ℝ) 1 ∧
    (faceUVToEquirectangular face u v).2 ∈ Set.Icc (0 : ℝ) 1 := by
  have hpi := Real.pi_pos
  have htab : faceDirection face u v = specDirectionTable face u v := by
    interval_cases face <;> rfl
  have h1 := Complex.neg_pi_lt_arg ⟨(faceDirection face u v).1, (faceDirection face u v).2.2⟩
  have h2 := Complex.arg_le_pi ⟨(faceDirection face u v).1, (faceDirection face u v).2.2⟩
  refine ⟨htab, ?_, ?_, ?_⟩
  · rw [← htab]
    simp only [faceUVToEquirectangular, pow_two]
  · simp only [faceUVToEquirectangular, atan2, Set.mem_Icc]
    constructor
    · apply div_nonneg <;> linarith
    · rw [div_le_one (by linarith)]
      linarith
  · simp only [faceUVToEquirectangular, Set.mem_Icc]
    constructor
    · exact div_nonneg (Real.arccos_nonneg _) hpi.le
    · rw [div_le_one hpi]
      exact Real.arccos_le_pi _

/-- Witness for C3 at face 0 and u = v = 0. -/
theorem C3_direction_table_and_range_witness :
    ((0 : ℕ) < 6 ∧ (0 : ℝ) ≤ 0 ∧ (0 : ℝ) < 1) ∧
    (faceDirection 0 0 0 = specDirectionTable 0 0 0 ∧
     faceUVToEquirectangular 0 0 0 =
       ((atan2 (specDirectionTable 0 0 0).2.2 (specDirectionTable 0 0 0).1 + π) / (2 * π),
        Real.arccos ((specDirectionTable 0 0 0).2.1 /
          Real.sqrt ((specDirectionTable 0 0 0).1 ^ 2 + (specDirectionTable 0 0 0).2.1 ^ 2 +
            (specDirectionTable 0 0 0).2.2 ^ 2)) / π) ∧
     (faceUVToEquirectangular 0 0 0).1 ∈ Set.Icc (0 : ℝ) 1 ∧
     (faceUVToEquirectangular 0 0 0).2 ∈ Set.Icc (0 : ℝ) 1) :=
  ⟨⟨by norm_num, by norm_num, by norm_num⟩,
   C3_direction_table_and_range 0 0 0 (by norm_num) (by norm_num) (by norm_num)
     (by norm_num) (by norm_num)⟩

/-- C4 counterexample: an out-of-range face id is not a fatal error; the
call returns normally, with first component exactly one half. -/
theorem C4_counterexample : (faceUVToEquirectangular 6 0 0).1 = 1 / 2 := by
  have hd : faceDirection 6 0 0 = (0, 0, 0) := rfl
  simp [faceUVToEquirectangular, hd, atan2_zero_zero]
  field_simp
  ring

/-- C4 amended: for every face id of six or more the direction switch falls
through to the zero direction and the function still returns a value whose
first component is one half; no error is raised and no defensive check on
the degenerate zero direction exists. -/
theorem C4_out_of_range_no_error (face : ℕ) (u v : ℝ) (hface : 6 ≤ face) :
    faceDirection face u v = (0, 0, 0) ∧
    (faceUVToEquirectangular face u v).1 = 1 / 2 := by
  obtain ⟨m, rfl⟩ : ∃ m, face = m + 6 := ⟨face - 6, by omega⟩
  have hd : faceDirection (m + 6) u v = (0, 0, 0) := rfl
  refine ⟨hd, ?_⟩
  simp [faceUVToEquirectangular, hd, atan2_zero_zero]
  field_simp
  ring

/-- Witness for the amended C4 at face 6 and u = v = 0. -/
theorem C4_out_of_range_no_error_witness :
    6 ≤ 6 ∧
    (faceDirection 6 0 0 = (0, 0, 0) ∧ (faceUVToEquirectangular 6 0 0).1 = 1 / 2) :=
  ⟨by norm_num, C4_out_of_range_no_error 6 0 0 (by norm_num)⟩

theorem generateCubeFace_pixel (img : ImageData) (face size x y : ℕ)
    (hsize : 0 < size) (hx : x < size) (hy : y < size) :
    generateCubeFace img face size ((y * size + x) * 4) =
      (sampleEquirectangularBilinear img
        (faceUVToEquirectangular face ((x : ℝ) / (size : ℝ)) ((y : ℝ) / (size : ℝ))).1
        (faceUVToEquirectangular face ((x : ℝ) / (size : ℝ)) ((y : ℝ) / (size : ℝ))).2
        img.width img.height).1 ∧
    generateCubeFace img face size ((y * size + x) * 4 + 1) =
      (sampleEquirectangularBilinear img
        (faceUVToEquirectangular face ((x : ℝ) / (size : ℝ)) ((y : ℝ) / (size : ℝ))).1
        (faceUVToEquirectangular face ((x : ℝ) / (size : ℝ)) ((y : ℝ) / (size : ℝ))).2
        img.width img.height).2.1 ∧
    generateCubeFace img face size ((y * size + x) * 4 + 2) =
      (sampleEquirectangularBilinear img
        (faceUVToEquirectangular face ((x : ℝ) / (size : ℝ)) ((y : ℝ) / (size : ℝ))).1
        (faceUVToEquirectangular face ((x : ℝ) / (size : ℝ)) ((y : ℝ) / (size : ℝ))).2
        img.width img.height).2.2 ∧
    generateCubeFace img face size ((y * size + x) * 4 + 3) = 255 := by
  have h40 : ((y * size + x) * 4) / 4 = y * size + x := by
    generalize y * size + x = A
    omega
  have hm0 : ((y * size + x) * 4) % 4 = 0 := Nat.mul_mod_left _ _
  have key : ∀ ch : ℕ, ch < 4 →
      ((y * size + x) * 4 + ch) / 4 = y * size + x ∧
      ((y * size + x) * 4 + ch) % 4 = ch := by
    intro ch hch
    constructor <;> (generalize y * size + x = A; omega)
  have hmodS : (y * size + x) % size = x := by
    rw [add_comm, Nat.add_mul_mod_self_right, Nat.mod_eq_of_lt hx]
  have hdivS : (y * size + x) / size = y := by
    rw [add_comm, Nat.add_mul_div_right x y hsize, Nat.div_eq_of_lt hx, Nat.zero_add]
  refine ⟨?_, ?_, ?_, ?_⟩
  · simp only [generateCubeFace, h40, hm0, hmodS, hdivS]
    norm_num
  · obtain ⟨hd, hm⟩ := key 1 (by norm_num)
    simp only [generateCubeFace, hd, hm, hmodS, hdivS]
    norm_num
  · obtain ⟨hd, hm⟩ := key 2 (by norm_num)
    simp only [generateCubeFace, hd, hm, hmodS, hdivS]
    norm_num
  · obtain ⟨hd, hm⟩ := key 3 (by norm_num)
    simp only [generateCubeFace, hd, hm, hmodS, hdivS]
    norm_num

/-- C2 amended: the rasterizer computes pixel (x, y) of a face by mapping
u = x / faceSize and v = y / faceSize (no half-pixel offset) through the
projection and then the bilinear sampler over the full source image, and
writes the RGB triple with alpha fixed at 255 at the flat RGBA index of
(x, y). -/
theorem C2_face_rasterizer_rule (img : ImageData) (face size x y : ℕ)
    (hface : face < 6) (hsize : 0 < size) (hx : x < size) (hy : y < size) :
    generateCubeFace img face size ((y * size + x) * 4) =
      (sampleEquirectangularBilinear img
        (faceUVToEquirectangular face ((x : ℝ) / (size : ℝ)) ((y : ℝ) / (size : ℝ))).1
        (faceUVToEquirectangular face ((x : ℝ) / (size : ℝ)) ((y : ℝ) / (size : ℝ))).2
        img.width img.height).1 ∧
    generateCubeFace img face size ((y * size + x) * 4 + 1) =
      (sampleEquirectangularBilinear img
        (faceUVToEquirectangular face ((x : ℝ) / (size : ℝ)) ((y : ℝ) / (size : ℝ))).1
        (faceUVToEquirectangular face ((x : ℝ) / (size : ℝ)) ((y : ℝ) / (size : ℝ))).2
        img.width img.height).2.1 ∧
    generateCubeFace img face size ((y * size + x) * 4 + 2) =
      (sampleEquirectangularBilinear img
        (faceUVToEquirectangular face ((x : ℝ) / (size : ℝ)) ((y : ℝ) / (size : ℝ))).1
        (faceUVToEquirectangular face ((x : ℝ) / (size : ℝ)) ((y : ℝ) / (size : ℝ))).2
        img.width img.height).2.2 ∧
    generateCubeFace img face size ((y * size + x) * 4 + 3) = 255 :=
  generateCubeFace_pixel img face size x y hsize hx hy

/-- Witness for the amended C2 on the concrete 9 by 1 image, face 4, size 1. -/
theorem C2_face_rasterizer_rule_witness :
    ((4 : ℕ) < 6 ∧ (0 : ℕ) < 1) ∧
    (generateCubeFace img9 4 1 ((0 * 1 + 0) * 4) =
       (sampleEquirectangularBilinear img9
         (faceUVToEquirectangular 4 (((0 : ℕ) : ℝ) / ((1 : ℕ) : ℝ)) (((0 : ℕ) : ℝ) / ((1 : ℕ) : ℝ))).1
         (faceUVToEquirectangular 4 (((0 : ℕ) : ℝ) / ((1 : ℕ) : ℝ)) (((0 : ℕ) : ℝ) / ((1 : ℕ) : ℝ))).2
         img9.width img9.height).1 ∧
     generateCubeFace img9 4 1 ((0 * 1 + 0) * 4 + 1) =
       (sampleEquirectangularBilinear img9
         (faceUVToEquirectangular 4 (((0 : ℕ) : ℝ) / ((1 : ℕ) : ℝ)) (((0 : ℕ) : ℝ) / ((1 : ℕ) : ℝ))).1
         (faceUVToEquirectangular 4 (((0 : ℕ) : ℝ) / ((1 : ℕ) : ℝ)) (((0 : ℕ) : ℝ) / ((1 : ℕ) : ℝ))).2
         img9.width img9.height).2.1 ∧
     generateCubeFace img9 4 1 ((0 * 1 + 0) * 4 + 2) =
       (sampleEquirectangularBilinear img9
         (faceUVToEquirectangular 4 (((0 : ℕ) : ℝ) / ((1 : ℕ) : ℝ)) (((0 : ℕ) : ℝ) / ((1 : ℕ) : ℝ))).1
         (faceUVToEquirectangular 4 (((0 : ℕ) : ℝ) / ((1 : ℕ) : ℝ)) (((0 : ℕ) : ℝ) / ((1 : ℕ) : ℝ))).2
         img9.width img9.height).2.2 ∧
     generateCubeFace img9 4 1 ((0 * 1 + 0) * 4 + 3) = 255) :=
  ⟨⟨by norm_num, by norm_num⟩,
   C2_face_rasterizer_rule img9 4 1 0 0 (by norm_num) (by norm_num) (by norm_num) (by norm_num)⟩

/-- C2 counterexample: on the 9 by 1 image img9, at face 4 with faceSize 1,
the code samples pixel (0, 0) at u = 0 / 1 giving red channel 255, while
the half-pixel rule of the specification samples at u = 0.5 / 1 giving red
channel 0. -/
theorem C2_half_pixel_counterexample :
    generateCubeFace img9 4 1 0 = 255 ∧
    (specRasterizerPixel img9 4 1 0 0).1 = 0 ∧
    generateCubeFace img9 4 1 0 ≠ (specRasterizerPixel img9 4 1 0 0).1 := by
  have hpc2 : pixelCoord (faceUVToEquirectangular 4 0 0).2 1 = ((0 : ℤ) : ℝ) := by
    simp [pixelCoord]
  have hpc1 : pixelCoord (faceUVToEquirectangular 4 0 0).1 9 = ((7 : ℤ) : ℝ) := by
    rw [pixelCoord, faceUV_front_corner_code]
    norm_num [clamp01, min_def, max_def]
  have hs1 := sample_at_integer img9 (faceUVToEquirectangular 4 0 0).1
    (faceUVToEquirectangular 4 0 0).2 9 1 7 0 hpc1 hpc2
  have hcode : generateCubeFace img9 4 1 0 = 255 := by
    have e1 : generateCubeFace img9 4 1 0 = (sampleEquirectangularBilinear img9
        (faceUVToEquirectangular 4 0 0).1 (faceUVToEquirectangular 4 0 0).2 9 1).1 := by
      simp [generateCubeFace, img9]
    rw [e1, hs1]
    norm_num [img9]
  have hpcs2 : pixelCoord (faceUVToEquirectangular 4 (1 / 2) (1 / 2)).2 1 = ((0 : ℤ) : ℝ) := by
    simp [pixelCoord]
  have hpcs1 : pixelCoord (faceUVToEquirectangular 4 (1 / 2) (1 / 2)).1 9 = ((6 : ℤ) : ℝ) := by
    rw [pixelCoord, faceUV_front_center_spec]
    norm_num [clamp01, min_def, max_def]
  have hs2 := sample_at_integer img9 (faceUVToEquirectangular 4 (1 / 2) (1 / 2)).1
    (faceUVToEquirectangular 4 (1 / 2) (1 / 2)).2 9 1 6 0 hpcs1 hpcs2
  have hspec : (specRasterizerPixel img9 4 1 0 0).1 = 0 := by
    have harg : (((0 : ℕ) : ℝ) + 1 / 2) / ((1 : ℕ) : ℝ) = 1 / 2 := by norm_num
    have e2 : specRasterizerPixel img9 4 1 0 0 = sampleEquirectangularBilinear img9
        (faceUVToEquirectangular 4 (1 / 2) (1 / 2)).1
        (faceUVToEquirectangular 4 (1 / 2) (1 / 2)).2 9 1 := by
      simp only [specRasterizerPixel, harg, img9]
    rw [e2, hs2]
    norm_num [img9]
  exact ⟨hcode, hspec, by rw [hcode, hspec]; norm_num⟩

theorem sample_const (img : ImageData) (r g b : ℤ) (width height : ℕ)
    (hw : 1 ≤ width) (hh : 1 ≤ height)
    (hconst : ∀ px py : ℤ, 0 ≤ px → px ≤ (width : ℤ) - 1 → 0 ≤ py → py ≤ (height : ℤ) - 1 →
      img.data ((py * (width : ℤ) + px) * 4) = r ∧
      img.data ((py * (width : ℤ) + px) * 4 + 1) = g ∧
      img.data ((py * (width : ℤ) + px) * 4 + 2) = b)
    (u v : ℝ) :
    sampleEquirectangularBilinear img u v width height = (r, g, b) := by
  have hx1 := floorIndex_nonneg hw u
  have hx1' := floorIndex_le hw u
  have hy1 := floorIndex_nonneg hh v
  have hy1' := floorIndex_le hh v
  have hx2 := clampedNext_nonneg hw hx1
  have hx2' := clampedNext_le width (floorIndex u width)
  have hy2 := clampedNext_nonneg hh hy1
  have hy2' := clampedNext_le height (floorIndex v height)
  obtain ⟨h11a, h11b, h11c⟩ := hconst _ _ hx1 hx1' hy1 hy1'
  obtain ⟨h21a, h21b, h21c⟩ := hconst _ _ hx2 hx2' hy1 hy1'
  obtain ⟨h12a, h12b, h12c⟩ := hconst _ _ hx1 hx1' hy2 hy2'
  obtain ⟨h22a, h22b, h22c⟩ := hconst _ _ hx2 hx2' hy2 hy2'
  have key : ∀ c : ℤ, ∀ fx fy : ℝ,
      round (((c : ℝ) * (1 - fx) + (c : ℝ) * fx) * (1 - fy) +
        ((c : ℝ) * (1 - fx) + (c : ℝ) * fx) * fy) = c := by
    intro c fx fy
    rw [show ((c : ℝ) * (1 - fx) + (c : ℝ) * fx) * (1 - fy) +
        ((c : ℝ) * (1 - fx) + (c : ℝ) * fx) * fy = (c : ℝ) by ring, round_intCast]
  simp only [sampleEquirectangularBilinear, getPixel, h11a, h11b, h11c, h21a, h21b, h21c,
    h12a, h12b, h12c, h22a, h22b, h22c, key]

/-- C9: on a source image whose every in-bounds pixel carries the same RGB
triple, the sampler returns exactly that triple for every input, every pixel
of every generated cube face carries exactly that triple with alpha 255, and
every copied tile entry in the valid region carries it as well. -/
theorem C9_constant_image_invariance (img : ImageData) (r g b : ℤ)
    (hw : 1 ≤ img.width) (hh : 1 ≤ img.height)
    (hconst : ∀ px py : ℤ,
      0 ≤ px → px ≤ (img.width : ℤ) - 1 → 0 ≤ py → py ≤ (img.height : ℤ) - 1 →
      img.data ((py * (img.width : ℤ) + px) * 4) = r ∧
      img.data ((py * (img.width : ℤ) + px) * 4 + 1) = g ∧
      img.data ((py * (img.width : ℤ) + px) * 4 + 2) = b) :
    (∀ u v : ℝ, sampleEquirectangularBilinear img u v img.width img.height = (r, g, b)) ∧
    (∀ face size x y : ℕ, face < 6 → 0 < size → x < size → y < size →
      generateCubeFace img face size ((y * size + x) * 4) = r ∧
      generateCubeFace img face size ((y * size + x) * 4 + 1) = g ∧
      generateCubeFace img face size ((y * size + x) * 4 + 2) = b ∧
      generateCubeFace img face size ((y * size + x) * 4 + 3) = 255) ∧
    (∀ face S T tX tY x y : ℕ, face < 6 → 0 < S → 0 < T →
      x < tileExtent S T tX → y < tileExtent S T tY →
      createTile (generateCubeFace img face S) tX tY T S ((y * T + x) * 4) = r ∧
      createTile (generateCubeFace img face S) tX tY T S ((y * T + x) * 4 + 1) = g ∧
      createTile (generateCubeFace img face S) tX tY T S ((y * T + x) * 4 + 2) = b) := by
  have hsample := sample_const img r g b img.width img.height hw hh hconst
  have hface : ∀ face size x y : ℕ, 0 < size → x < size → y < size →
      generateCubeFace img face size ((y * size + x) * 4) = r ∧
      generateCubeFace img face size ((y * size + x) * 4 + 1) = g ∧
      generateCubeFace img face size ((y * size + x) * 4 + 2) = b ∧
      generateCubeFace img face size ((y * size + x) * 4 + 3) = 255 := by
    intro face size x y hsize hx hy
    obtain ⟨e0, e1, e2, e3⟩ := generateCubeFace_pixel img face size x y hsize hx hy
    rw [e0, e1, e2, hsample]
    exact ⟨rfl, rfl, rfl, e3⟩
  refine ⟨fun u v => hsample u v, fun face size x y _ => hface face size x y, ?_⟩
  intro face S T tX tY x y _ hS hT hx hy
  have hxS : tX * T + x < S := by
    have h1 : x < S - tX * T := lt_of_lt_of_le hx (min_le_right _ _)
    generalize tX * T = q at h1 ⊢
    omega
  have hyS : tY * T + y < S := by
    have h1 : y < S - tY * T := lt_of_lt_of_le hy (min_le_right _ _)
    generalize tY * T = q at h1 ⊢
    omega
  obtain ⟨f0, f1, f2, f3⟩ := hface face S (tX * T + x) (tY * T + y) hS hxS hyS
  have hc0 := createTile_copy (generateCubeFace img face S) hT tX tY x y 0 hx hy (by norm_num)
  have hc1 := createTile_copy (generateCubeFace img face S) hT tX tY x y 1 hx hy (by norm_num)
  have hc2 := createTile_copy (generateCubeFace img face S) hT tX tY x y 2 hx hy (by norm_num)
  rw [Nat.add_zero] at hc0
  exact ⟨hc0.trans f0, hc1.trans f1, hc2.trans f2⟩

theorem constImage42_const : ∀ px py : ℤ,
    0 ≤ px → px ≤ (constImage42.width : ℤ) - 1 → 0 ≤ py →
    py ≤ (constImage42.height : ℤ) - 1 →
    constImage42.data ((py * (constImage42.width : ℤ) + px) * 4) = 128 ∧
    constImage42.data ((py * (constImage42.width : ℤ) + px) * 4 + 1) = 64 ∧
    constImage42.data ((py * (constImage42.width : ℤ) + px) * 4 + 2) = 32 := by
  intro px py h0 h1 h2 h3
  refine ⟨?_, ?_, ?_⟩
  · simp only [constImage42]
    rw [if_pos (by omega)]
  · simp only [constImage42]
    rw [if_neg (by omega), if_pos (by omega)]
  · simp only [constImage42]
    rw [if_neg (by omega), if_neg (by omega), if_pos (by omega)]

/-- Witness for C9 on the concrete constant 4 by 2 image with RGB
(128, 64, 32). -/
theorem C9_constant_image_invariance_witness :
    (1 ≤ constImage42.width ∧ 1 ≤ constImage42.height ∧
     (∀ px py : ℤ,
       0 ≤ px → px ≤ (constImage42.width : ℤ) - 1 → 0 ≤ py →
       py ≤ (constImage42.height : ℤ) - 1 →
       constImage42.data ((py * (constImage42.width : ℤ) + px) * 4) = 128 ∧
       constImage42.data ((py * (constImage42.width : ℤ) + px) * 4 + 1) = 64 ∧
       constImage42.data ((py * (constImage42.width : ℤ) + px) * 4 + 2) = 32)) ∧
    ((∀ u v : ℝ, sampleEquirectangularBilinear constImage42 u v
        constImage42.width constImage42.height = (128, 64, 32)) ∧
     (∀ face size x y : ℕ, face < 6 → 0 < size → x < size → y < size →
       generateCubeFace constImage42 face size ((y * size + x) * 4) = 128 ∧
       generateCubeFace constImage42 face size ((y * size + x) * 4 + 1) = 64 ∧
       generateCubeFace constImage42 face size ((y * size + x) * 4 + 2) = 32 ∧
       generateCubeFace constImage42 face size ((y * size + x) * 4 + 3) = 255) ∧
     (∀ face S T tX tY x y : ℕ, face < 6 → 0 < S → 0 < T →
       x < tileExtent S T tX → y < tileExtent S T tY →
       createTile (generateCubeFace constImage42 face S) tX tY T S ((y * T + x) * 4) = 128 ∧
       createTile (generateCubeFace constImage42 face S) tX tY T S ((y * T + x) * 4 + 1) = 64 ∧
       createTile (generateCubeFace constImage42 face S) tX tY T S ((y * T + x) * 4 + 2) = 32)) :=
  ⟨⟨by norm_num [constImage42], by norm_num [constImage42], constImage42_const⟩,
   C9_constant_image_invariance constImage42 128 64 32
     (by norm_num [constImage42]) (by norm_num [constImage42]) constImage42_const⟩

/-- C10: the client implementations of the projection and of the bilinear
sampler agree with the server implementations at every input. -/
theorem C10_client_server_equivalence :
    (∀ (face : ℕ) (u v : ℝ),
      clientFaceUVToEquirectangular face u v = faceUVToEquirectangular face u v) ∧
    (∀ (img : ImageData) (u v : ℝ) (width height : ℕ),
      clientSampleEquirectangularBilinear img u v width height =
        sampleEquirectangularBilinear img u v width height) := by
  constructor
  · intro face u v
    rcases face with _ | _ | _ | _ | _ | _ | m <;> rfl
  · intro img u v width height
    rfl

/-- C6 counterexample: with a codec that fails at top quality and succeeds
at the reduced quality, the server-route createTile fails the conversion
while the page createTile succeeds through its retry, so the single retry
claimed for every tile does not hold of the server route. -/
theorem C6_counterexample :
    serverEncodeTile failAtTopQuality = Except.error () ∧
    pageEncodeTile failAtTopQuality = Except.ok 7 := by
  constructor
  · norm_num [serverEncodeTile, failAtTopQuality]
  · norm_num [pageEncodeTile, failAtTopQuality]

/-- C6 amended: the page createTile attempts top quality, retries exactly
once at the reduced quality, and fails fatally only when both attempts
fail; the server-route createTile makes a single top-quality attempt and
fails fatally on its failure, with no retry; neither flow can drop a tile
silently, every outcome is an encoded blob or a fatal error. -/
theorem C6_encode_retry (encode : ℚ → Option ℕ) :
    (∀ blob : ℕ, serverEncodeTile encode = Except.ok blob ↔ encode 1 = some blob) ∧
    (serverEncodeTile encode = Except.error () ↔ encode 1 = none) ∧
    (∀ blob : ℕ, pageEncodeTile encode = Except.ok blob ↔
      encode 1 = some blob ∨ (encode 1 = none ∧ encode (9 / 10) = some blob)) ∧
    (pageEncodeTile encode = Except.error () ↔
      encode 1 = none ∧ encode (9 / 10) = none) := by
  refine ⟨?_, ?_, ?_, ?_⟩ <;>
    rcases h1 : encode 1 with _ | b1 <;>
    rcases h2 : encode (9 / 10) with _ | b2 <;>
    simp [serverEncodeTile, pageEncodeTile, h1, h2, eq_comm]
